import Mathlib

/-!
Verification of the extrinsic-contact estimation subsystem
(`ExtrinsicContact` in
`isaacgyminsertion/tasks/factory_tactile/factory_env_insertion.py`).

The development shallowly embeds the numeric core of the class:

* the contact-score pipeline of `get_extrinsic_contact` (clipping,
  normalisation, binarisation, stochastic dropout, reshape) over `ℚ`,
  with the nearest-surface distances (an `open3d` query) taken as input;
* the surface-sampling call `trimesh.sample.sample_surface_even`
  (rejection sampling), modelled from the library's algorithm;
* the socket state kept by the estimator (`__init__` /
  `reset_socket_pos`) as an explicit state record, with the random
  surface draw supplied as a sampler argument;
* the point-cloud merging of `merge_goal_pcl`;
* the pose-tracking functions `estimate_pose` / `estimate_pose_batch`
  over `ℝ`, with float-NaN production modelled as `Option.none`
  (a division `0/0` or an out-of-domain `np.arccos` produces NaN in
  the original; every other operation is exact).

Randomness (`np.random.shuffle`, `np.random.uniform`, `torch.randperm`)
is passed in as explicit arguments, constrained in theorems exactly as
the library guarantees (a permutation, a number in the drawn range).
-/

/-! ### Scalar contact score: `get_extrinsic_contact` lines 273-281

The distances `di` returned by `compute_distance` are processed
pointwise:
```
d[d > threshold] = threshold
d = np.clip(d, 0.0, threshold)
d = 1.0 - d / threshold
d = np.clip(d, 0.0, 1.0)
d[d > 0.1] = 1.0
```
-/

/-- `np.clip(x, lo, hi)`: maximum with `lo`, then minimum with `hi`. -/
def npClip (x lo hi : ℚ) : ℚ := min (max x lo) hi

/-- The pre-dropout contact score of a single queried distance
(`get_extrinsic_contact`, lines 273-281). -/
def contact_score (threshold : ℚ) (d0 : ℚ) : ℚ :=
  let d1 := if threshold < d0 then threshold else d0
  let d2 := npClip d1 0 threshold
  let s := 1 - d2 / threshold
  let s2 := npClip s 0 1
  if 1/10 < s2 then 1 else s2

/-- The formula the spec gives for the pre-dropout score:
`clip(1 - clip(d, 0, t)/t, 0, 1)`, then snapping any score greater
than `0.1` to `1.0`. -/
def contact_score_spec (threshold : ℚ) (d0 : ℚ) : ℚ :=
  let c := npClip (1 - npClip d0 0 threshold / threshold) 0 1
  if 1/10 < c then 1 else c

/-- C2 (counterexample): at threshold `t = 1` and distance `d = 9/10`
(that is, `d = 0.9·t` exactly), the pre-dropout score is `1/10`, which
is not snapped to `1.0` (the snap condition is strict), refuting the
claim that every `d ≤ 0.9·t` yields score 1. -/
theorem contact_score_at_nine_tenths :
    contact_score 1 (9/10) = 1/10 ∧ contact_score 1 (9/10) ≠ 1 := by
  constructor <;> norm_num [contact_score, npClip]

/-- Closed form of `contact_score` (the `let` chain zeta-reduced). -/
theorem contact_score_unfold (t d : ℚ) :
    contact_score t d =
      (if 1/10 < npClip (1 - npClip (if t < d then t else d) 0 t / t) 0 1
       then 1
       else npClip (1 - npClip (if t < d then t else d) 0 t / t) 0 1) := rfl

/-- C2 (amended): for every threshold `t > 0` and distance `d`, the
pre-dropout score equals the spec's `clip(1 - clip(d,0,t)/t, 0, 1)`
with scores strictly greater than `0.1` snapped to `1.0`; `d ≥ t`
yields score `0`, and `d` strictly below `0.9·t` yields score `1`. -/
theorem contact_score_spec_eq (t d : ℚ) (ht : 0 < t) :
    contact_score t d = contact_score_spec t d ∧
    (t ≤ d → contact_score t d = 0) ∧
    (d < 9/10 * t → contact_score t d = 1) := by
  have hne : t ≠ 0 := ne_of_gt ht
  refine ⟨?_, ?_, ?_⟩
  · -- the explicit pre-clamp `d[d > t] = t` is absorbed by the clip
    have hinner : npClip (if t < d then t else d) 0 t = npClip d 0 t := by
      unfold npClip
      rcases lt_or_le t d with h | h
      · rw [if_pos h, max_eq_left ht.le, min_self,
            max_eq_left (ht.le.trans h.le), min_eq_right h.le]
      · rw [if_neg (not_lt.mpr h)]
    rw [contact_score_unfold, hinner]
    rfl
  · intro hd
    have h1 : (if t < d then t else d) = t := by
      rcases lt_or_le t d with h | h
      · rw [if_pos h]
      · rw [if_neg (not_lt.mpr h), le_antisymm h hd]
    rw [contact_score_unfold, h1]
    unfold npClip
    rw [max_eq_left ht.le, min_self, div_self hne]
    norm_num
  · intro hd
    have hdt : d < t := lt_of_lt_of_le hd (by nlinarith)
    have h1 : (if t < d then t else d) = d := by rw [if_neg (not_lt.mpr hdt.le)]
    rw [contact_score_unfold, h1]
    unfold npClip
    rcases le_or_lt d 0 with h0 | h0
    · rw [max_eq_right h0, min_eq_left ht.le]
      norm_num
    · rw [max_eq_left h0.le, min_eq_left hdt.le]
      have hs : 1/10 < 1 - d / t := by
        have : d / t < 9/10 := (div_lt_iff₀ ht).mpr (by linarith)
        linarith
      have hs1 : 1 - d / t ≤ 1 := by
        have : 0 ≤ d / t := div_nonneg h0.le ht.le
        linarith
      rw [max_eq_left (by linarith), min_eq_left hs1, if_pos hs]

/-- C2 (witness): the amended description evaluated at threshold `1`,
once at distance `2` (beyond the threshold, score `0`) and once at
distance `1/2` (inside `0.9·t`, score `1`). -/
theorem contact_score_spec_eq_witness :
    contact_score 1 2 = contact_score_spec 1 2 ∧ contact_score 1 2 = 0 ∧
    contact_score 1 (1/2) = 1 :=
  ⟨(contact_score_spec_eq 1 2 (by norm_num)).1,
   (contact_score_spec_eq 1 2 (by norm_num)).2.1 (by norm_num),
   (contact_score_spec_eq 1 (1/2) (by norm_num)).2.2 (by norm_num)⟩

/-! ### Stochastic dropout: `get_extrinsic_contact` lines 283-288

```
indices = np.where(d == 1.0)[0]
if len(indices) > 0:
    np.random.shuffle(indices)
    num_idx = int(d[indices].sum() * np.random.uniform(0.0, 0.1))
    indices = indices[:num_idx]
    d[indices] = 0.0
```
The shuffled index array and the uniform draw `u` are inputs of the
model; theorems constrain them exactly as numpy guarantees
(`shuffled` is a permutation of the positions holding `1.0`,
`0 ≤ u ≤ 0.1`).
-/

/-- The positions of the score vector holding exactly `1.0`
(`np.where(d == 1.0)[0]`). -/
def onesIdx (d : List ℚ) : List ℕ :=
  (List.range d.length).filter (fun i => decide (d.getD i 0 = 1))

/-- The dropout step: zero the scores at the first
`int(d[indices].sum() * u)` positions of the shuffled index array. -/
def dropout (d : List ℚ) (shuffled : List ℕ) (u : ℚ) : List ℚ :=
  let num_idx : ℕ := (⌊(shuffled.map (fun j => d.getD j 0)).sum * u⌋).toNat
  let chosen := shuffled.take num_idx
  (List.range d.length).map (fun i => if i ∈ chosen then 0 else d.getD i 0)

theorem mem_onesIdx (d : List ℚ) (i : ℕ) :
    i ∈ onesIdx d ↔ i < d.length ∧ d.getD i 0 = 1 := by
  simp [onesIdx, List.mem_filter, List.mem_range]

theorem onesIdx_nodup (d : List ℚ) : (onesIdx d).Nodup :=
  (List.nodup_range _).filter _

theorem getD_range_map (f : ℕ → ℚ) (n i : ℕ) :
    ((List.range n).map f).getD i 0 = if i < n then f i else 0 := by
  rcases lt_or_le i n with h | h
  · rw [List.getD_eq_getElem _ _ (by simpa using h), if_pos h]
    simp
  · rw [List.getD_eq_default _ _ (by simpa using h), if_neg (not_lt.mpr h)]

/-- The sum `d[indices].sum()` over the shuffled one-positions equals
the number of one-positions (each summand is exactly `1.0`). -/
theorem sum_over_ones (d : List ℚ) (shuffled : List ℕ)
    (hperm : shuffled.Perm (onesIdx d)) :
    (shuffled.map (fun j => d.getD j 0)).sum = ((onesIdx d).length : ℚ) := by
  rw [(hperm.map (fun j => d.getD j 0)).sum_eq]
  have hrep : (onesIdx d).map (fun j => d.getD j 0) =
      List.replicate (onesIdx d).length (1 : ℚ) := by
    rw [List.eq_replicate_iff]
    refine ⟨by simp, ?_⟩
    intro b hb
    rcases List.mem_map.mp hb with ⟨j, hj, rfl⟩
    exact ((mem_onesIdx d j).mp hj).2
  rw [hrep, List.sum_replicate, nsmul_eq_mul, mul_one]

/-- C3 (confirmed): in the dropout step, only entries whose score is
exactly `1.0` are ever modified (and they are set to `0.0`), and the
number of modified entries is exactly `int(S·u)` where `S` is the sum
of the scores at the one-positions — equal to the number of
one-positions — and `u` is the uniform draw from `[0, 0.1]`.  The
zeroed count is data-dependent, not a fixed fraction of the length. -/
theorem dropout_spec (d : List ℚ) (shuffled : List ℕ) (u : ℚ)
    (hperm : shuffled.Perm (onesIdx d)) (hu0 : 0 ≤ u) (hu1 : u ≤ 1/10) :
    (∀ i, d.getD i 0 ≠ 1 → (dropout d shuffled u).getD i 0 = d.getD i 0) ∧
    (∀ i, (dropout d shuffled u).getD i 0 ≠ d.getD i 0 →
       d.getD i 0 = 1 ∧ (dropout d shuffled u).getD i 0 = 0) ∧
    ((Finset.range d.length).filter
        (fun i => (dropout d shuffled u).getD i 0 ≠ d.getD i 0)).card
      = (⌊(shuffled.map (fun j => d.getD j 0)).sum * u⌋).toNat ∧
    (shuffled.map (fun j => d.getD j 0)).sum = ((onesIdx d).length : ℚ) := by
  have hS := sum_over_ones d shuffled hperm
  set L : ℕ := (onesIdx d).length with hL
  set numIdx : ℕ := (⌊(shuffled.map (fun j => d.getD j 0)).sum * u⌋).toNat
    with hnum
  set chosen : List ℕ := shuffled.take numIdx with hchosen
  have hdrop : dropout d shuffled u =
      (List.range d.length).map (fun i => if i ∈ chosen then 0 else d.getD i 0) := rfl
  have hget : ∀ i, (dropout d shuffled u).getD i 0 =
      if i < d.length then (if i ∈ chosen then 0 else d.getD i 0) else 0 := by
    intro i; rw [hdrop, getD_range_map]
  have hsubset : ∀ i ∈ chosen, i ∈ onesIdx d := by
    intro i hi
    exact hperm.subset (List.take_subset _ _ hi)
  have hnum_le : numIdx ≤ shuffled.length := by
    have h1 : (⌊(shuffled.map (fun j => d.getD j 0)).sum * u⌋) ≤ (L : ℤ) := by
      rw [hS]
      calc ⌊(L : ℚ) * u⌋ ≤ ⌊(L : ℚ)⌋ := by
              apply Int.floor_le_floor
              have hL0 : (0:ℚ) ≤ (L : ℚ) := by positivity
              nlinarith
        _ = (L : ℤ) := Int.floor_natCast L
    have h2 := Int.toNat_le_toNat h1
    rw [Int.toNat_natCast] at h2
    rw [hperm.length_eq]
    exact h2
  have hchosen_len : chosen.length = numIdx := by
    rw [hchosen, List.length_take, min_eq_left hnum_le]
  have hchosen_nodup : chosen.Nodup := by
    exact ((hperm.nodup_iff).mpr (onesIdx_nodup d)).sublist (List.take_sublist _ _)
  have hchanged : ∀ i, (dropout d shuffled u).getD i 0 ≠ d.getD i 0 ↔ i ∈ chosen := by
    intro i
    rw [hget i]
    constructor
    · intro hne
      by_cases hlt : i < d.length
      · rw [if_pos hlt] at hne
        by_cases hc : i ∈ chosen
        · exact hc
        · rw [if_neg hc] at hne; exact absurd rfl hne
      · rw [if_neg hlt] at hne
        rw [List.getD_eq_default _ _ (not_lt.mp hlt)] at hne
        exact absurd rfl hne
    · intro hc
      have hone := (mem_onesIdx d i).mp (hsubset i hc)
      rw [if_pos hone.1, if_pos hc, hone.2]
      norm_num
  refine ⟨?_, ?_, ?_, hS⟩
  · intro i hne
    rw [hget i]
    by_cases hlt : i < d.length
    · rw [if_pos hlt]
      have : i ∉ chosen := fun hc => hne ((mem_onesIdx d i).mp (hsubset i hc)).2
      rw [if_neg this]
    · rw [if_neg hlt, List.getD_eq_default _ _ (not_lt.mp hlt)]
  · intro i hne
    have hc := (hchanged i).mp hne
    have hone := (mem_onesIdx d i).mp (hsubset i hc)
    refine ⟨hone.2, ?_⟩
    rw [hget i, if_pos hone.1, if_pos hc]
  · have hset : ((Finset.range d.length).filter
        (fun i => (dropout d shuffled u).getD i 0 ≠ d.getD i 0)) = chosen.toFinset := by
      ext i
      simp only [Finset.mem_filter, Finset.mem_range, List.mem_toFinset]
      constructor
      · intro h; exact (hchanged i).mp h.2
      · intro h
        exact ⟨((mem_onesIdx d i).mp (hsubset i h)).1, (hchanged i).mpr h⟩
    rw [hset, List.toFinset_card_of_nodup hchosen_nodup, hchosen_len]

/-- C3 (witness): twelve entries at score `1.0` and a thirteenth at
`0`; with `u = 1/10` the zeroed count is `int(12 · 0.1) = 1`. -/
theorem dropout_spec_witness :
    (∀ i, ((List.replicate 12 (1:ℚ)) ++ [0]).getD i 0 ≠ 1 →
       (dropout ((List.replicate 12 (1:ℚ)) ++ [0]) (List.range 12).reverse (1/10)).getD i 0
         = ((List.replicate 12 (1:ℚ)) ++ [0]).getD i 0) ∧
    (∀ i, (dropout ((List.replicate 12 (1:ℚ)) ++ [0]) (List.range 12).reverse (1/10)).getD i 0
         ≠ ((List.replicate 12 (1:ℚ)) ++ [0]).getD i 0 →
       ((List.replicate 12 (1:ℚ)) ++ [0]).getD i 0 = 1 ∧
       (dropout ((List.replicate 12 (1:ℚ)) ++ [0]) (List.range 12).reverse (1/10)).getD i 0 = 0) ∧
    ((Finset.range ((List.replicate 12 (1:ℚ)) ++ [0]).length).filter
        (fun i => (dropout ((List.replicate 12 (1:ℚ)) ++ [0]) (List.range 12).reverse (1/10)).getD i 0
          ≠ ((List.replicate 12 (1:ℚ)) ++ [0]).getD i 0)).card
      = (⌊((List.range 12).reverse.map
            (fun j => ((List.replicate 12 (1:ℚ)) ++ [0]).getD j 0)).sum * (1/10)⌋).toNat ∧
    ((List.range 12).reverse.map
        (fun j => ((List.replicate 12 (1:ℚ)) ++ [0]).getD j 0)).sum
      = ((onesIdx ((List.replicate 12 (1:ℚ)) ++ [0])).length : ℚ) :=
  dropout_spec ((List.replicate 12 (1:ℚ)) ++ [0]) (List.range 12).reverse (1/10)
    (by decide) (by norm_num) (by norm_num)

/-! ### The full score pipeline: `get_extrinsic_contact` lines 254-314

The nearest-surface distances `di` (the `open3d`
`RaycastingScene.compute_distance` query over the flattened
`N · P` transformed sample points) are the input; the result is the
returned `view(-1, n_points)` reshape, as a list of `n_points`-wide
rows. -/

/-- Scores, dropout, and the final `view(-1, n_points)` reshape. -/
def get_extrinsic_contact (threshold : ℚ) (n_points : ℕ) (di : List ℚ)
    (shuffled : List ℕ) (u : ℚ) : List (List ℚ) :=
  let d := di.map (contact_score threshold)
  let d2 := dropout d shuffled u
  (List.range (d2.length / n_points)).map
    (fun r => (List.range n_points).map (fun c => d2.getD (r * n_points + c) 0))

/-- Every pre-dropout score lies in `[0, 1]`. -/
theorem contact_score_mem_unit (t d : ℚ) :
    0 ≤ contact_score t d ∧ contact_score t d ≤ 1 := by
  rw [contact_score_unfold]
  by_cases h : 1/10 < npClip (1 - npClip (if t < d then t else d) 0 t / t) 0 1
  · rw [if_pos h]; norm_num
  · rw [if_neg h]
    unfold npClip
    exact ⟨le_min (le_max_right _ _) (by norm_num), min_le_right _ _⟩

/-- `getD` with default `0` of a list of `[0,1]`-entries stays in `[0,1]`. -/
theorem getD_mem_unit (l : List ℚ) (h : ∀ x ∈ l, 0 ≤ x ∧ x ≤ 1) (i : ℕ) :
    0 ≤ l.getD i 0 ∧ l.getD i 0 ≤ 1 := by
  rcases lt_or_le i l.length with hi | hi
  · rw [List.getD_eq_getElem _ _ hi]
    exact h _ (l.getElem_mem hi)
  · rw [List.getD_eq_default _ _ hi]
    norm_num

/-- Dropout only zeroes entries, so `[0,1]` bounds are preserved. -/
theorem dropout_mem_unit (d : List ℚ) (shuffled : List ℕ) (u : ℚ)
    (h : ∀ x ∈ d, 0 ≤ x ∧ x ≤ 1) :
    ∀ x ∈ dropout d shuffled u, 0 ≤ x ∧ x ≤ 1 := by
  intro x hx
  rcases List.mem_map.mp hx with ⟨i, _, rfl⟩
  by_cases hc : i ∈ shuffled.take ((⌊(shuffled.map (fun j => d.getD j 0)).sum * u⌋).toNat)
  · rw [if_pos hc]; norm_num
  · rw [if_neg hc]; exact getD_mem_unit d h i

/-- C4 (confirmed): for distances over `N` pose instances and `P`
sample points (a flattened list of length `N·P`), `get_extrinsic_contact`
returns an `N × P` array every entry of which lies in `[0, 1]`. -/
theorem get_extrinsic_contact_shape_unit (t : ℚ) (P N : ℕ) (di : List ℚ)
    (shuffled : List ℕ) (u : ℚ) (ht : 0 < t) (hP : 0 < P)
    (hlen : di.length = N * P) :
    (get_extrinsic_contact t P di shuffled u).length = N ∧
    (∀ row ∈ get_extrinsic_contact t P di shuffled u, row.length = P) ∧
    (∀ row ∈ get_extrinsic_contact t P di shuffled u,
       ∀ x ∈ row, 0 ≤ x ∧ x ≤ 1) := by
  have hd2len : (dropout (di.map (contact_score t)) shuffled u).length
      = di.length := by
    unfold dropout
    rw [List.length_map, List.length_range, List.length_map]
  refine ⟨?_, ?_, ?_⟩
  · unfold get_extrinsic_contact
    rw [List.length_map, List.length_range, hd2len, hlen,
        Nat.mul_div_cancel N hP]
  · intro row hrow
    rcases List.mem_map.mp hrow with ⟨r, _, rfl⟩
    rw [List.length_map, List.length_range]
  · intro row hrow x hx
    rcases List.mem_map.mp hrow with ⟨r, _, rfl⟩
    rcases List.mem_map.mp hx with ⟨c, _, rfl⟩
    apply getD_mem_unit
    apply dropout_mem_unit
    intro y hy
    rcases List.mem_map.mp hy with ⟨d0, _, rfl⟩
    exact contact_score_mem_unit t d0

/-- C4 (witness): four distances over two instances of two sample
points each, threshold `1`: a `2 × 2` result with entries in `[0,1]`. -/
theorem get_extrinsic_contact_shape_unit_witness :
    (get_extrinsic_contact 1 2 [0, 2, 3, 4] [0] (1/10)).length = 2 ∧
    (∀ row ∈ get_extrinsic_contact 1 2 [0, 2, 3, 4] [0] (1/10), row.length = 2) ∧
    (∀ row ∈ get_extrinsic_contact 1 2 [0, 2, 3, 4] [0] (1/10),
       ∀ x ∈ row, 0 ≤ x ∧ x ≤ 1) :=
  get_extrinsic_contact_shape_unit 1 2 2 [0, 2, 3, 4] [0] (1/10)
    (by norm_num) (by norm_num) (by norm_num)

/-! ### Surface sampling: `trimesh.sample.sample_surface_even`

`__init__` (lines 88, 100) and `reset_socket_pos` (line 153) draw the
fixed surface samples with `trimesh.sample.sample_surface_even(mesh,
num_points)`.  That library routine is modelled here from its
implementation: it draws `3 · count` area-weighted candidate points on
the mesh surface, discards every candidate lying within the rejection
radius of an earlier kept candidate, and truncates the survivors to
`count`; when fewer than `count` survive it returns the shorter array
and only emits a log warning.  The candidate draw and the radius are
inputs of the model. -/

structure Qvec3 where
  x : ℚ
  y : ℚ
  z : ℚ
deriving DecidableEq

def distSq (a b : Qvec3) : ℚ :=
  (a.x - b.x)^2 + (a.y - b.y)^2 + (a.z - b.z)^2

/-- Keep each candidate only if it is farther than `radius` from every
already-kept point (`trimesh.points.remove_close`, greedy in order). -/
def remove_close_aux (radius : ℚ) : List Qvec3 → List Qvec3 → List Qvec3
  | kept, [] => kept
  | kept, p :: rest =>
    if kept.all (fun q => decide (radius^2 < distSq q p)) then
      remove_close_aux radius (kept ++ [p]) rest
    else
      remove_close_aux radius kept rest

def remove_close (pts : List Qvec3) (radius : ℚ) : List Qvec3 :=
  remove_close_aux radius [] pts

/-- `trimesh.sample.sample_surface_even(mesh, count)`: rejection
sampling over the candidate draw, truncated to `count`.  Returns the
survivors even when fewer than `count` remain. -/
def sample_surface_even (candidates : List Qvec3) (radius : ℚ)
    (count : ℕ) : List Qvec3 :=
  (remove_close candidates radius).take count

/-- C7 (refutation at the failing input): six coincident candidate
draws (the `3 · count` draws for `count = 2` on a degenerate sliver of
surface), rejection radius `1`: the even sampler keeps a single point,
so the surface sample has 1 point, not the requested `count = 2`.
Downstream the class nevertheless sets `self.n_points = num_points`
and reshapes with `view(-1, self.n_points)`, which assumes exactly
`count` points per instance. -/
theorem sample_surface_even_shortfall :
    (sample_surface_even (List.replicate 6 ⟨0,0,0⟩) 1 2).length = 1 ∧
    (sample_surface_even (List.replicate 6 ⟨0,0,0⟩) 1 2).length ≠ 2 := by
  have h : sample_surface_even (List.replicate 6 ⟨0,0,0⟩) 1 2 = [⟨0,0,0⟩] := by
    norm_num [sample_surface_even, remove_close, remove_close_aux, distSq,
      List.replicate]
  rw [h]
  norm_num

/-! ### Rigid transforms over `ℚ` and the estimator's socket state

`apply_transform` (lines 126-132) converts a point set to homogeneous
coordinates and multiplies by a 4×4 pose; only the first three rows of
the pose reach the returned `[..., :3]` slice, so a pose is modelled
by its three upper rows and translation column. -/

def dotQ (a b : Qvec3) : ℚ := a.x * b.x + a.y * b.y + a.z * b.z

def smulQ (c : ℚ) (v : Qvec3) : Qvec3 := ⟨c * v.x, c * v.y, c * v.z⟩

/-- The three upper rows (rotation block rows `r0 r1 r2` and
translation `t`) of a homogeneous 4×4 pose. -/
structure TfQ where
  r0 : Qvec3
  r1 : Qvec3
  r2 : Qvec3
  t : Qvec3
deriving DecidableEq

def tf_apply (T : TfQ) (p : Qvec3) : Qvec3 :=
  ⟨dotQ T.r0 p + T.t.x, dotQ T.r1 p + T.t.y, dotQ T.r2 p + T.t.z⟩

/-- `apply_transform` for one pose of the batch: transform each point
of the shared point set. -/
def apply_transform (T : TfQ) (pts : List Qvec3) : List Qvec3 :=
  pts.map (tf_apply T)

def idTf : TfQ := ⟨⟨1,0,0⟩, ⟨0,1,0⟩, ⟨0,0,1⟩, ⟨0,0,0⟩⟩

/-- A loaded socket mesh: the file it came from, the accumulated
uniform scale, and the accumulated translation (`apply_scale`
multiplies vertices, `apply_transform` with a translation shifts
them). -/
structure MeshQ where
  base : ℕ
  scale : ℚ
  offset : Qvec3
deriving DecidableEq

def apply_scaleM (m : MeshQ) (s : ℚ) : MeshQ :=
  ⟨m.base, m.scale * s, smulQ s m.offset⟩

def translateM (m : MeshQ) (p : Qvec3) : MeshQ :=
  ⟨m.base, m.scale, ⟨m.offset.x + p.x, m.offset.y + p.y, m.offset.z + p.z⟩⟩

/-- The socket-derived state held by `ExtrinsicContact`:
`socket_trimesh`, its construction-time copy `reset_socket_trimesh`,
the position, the surface sample `socket_pcl`, the cached point cloud
`socket_pc` (`trimesh.points.PointCloud`, used by `get_pcl`), the mesh
the `RaycastingScene` was built from, and the tracked plug poses. -/
structure ContactState where
  socket_trimesh : MeshQ
  reset_socket_trimesh : MeshQ
  socket_pos : Qvec3
  socket_pcl : List Qvec3
  socket_pc : List Qvec3
  socket_scene : MeshQ
  plug_pose_no_rot : List TfQ
  n_points : ℕ
  num_envs : ℕ

/-- `__init__` (socket part, lines 80-108): load, copy for reset,
scale by `socket_scale`, sample the surface, cache the point cloud,
build the raycasting scene.  The surface draw is supplied by the
`sample` argument (the library draw is random). -/
def ExtrinsicContact_init (mesh_socket : ℕ) (socket_scale : ℚ)
    (socket_pos : Qvec3) (num_envs n_points : ℕ)
    (sample : MeshQ → ℕ → List Qvec3) : ContactState :=
  let loaded : MeshQ := ⟨mesh_socket, 1, ⟨0,0,0⟩⟩
  let scaled := apply_scaleM loaded socket_scale
  let pcl := sample scaled n_points
  { socket_trimesh := scaled
    reset_socket_trimesh := loaded
    socket_pos := socket_pos
    socket_pcl := pcl
    socket_pc := pcl
    socket_scene := scaled
    plug_pose_no_rot := List.replicate num_envs idTf
    n_points := n_points
    num_envs := num_envs }

/-- `reset_socket_pos` (lines 134-154): restart from the construction
copy, `apply_scale(1.0)`, translate to the new socket position,
rebuild the raycasting scene, redraw `socket_pcl`, reset the tracked
plug poses.  `socket_pc` is not touched. -/
def reset_socket_pos (st : ContactState) (socket_pos : Qvec3)
    (sample : MeshQ → ℕ → List Qvec3) : ContactState :=
  let m1 := apply_scaleM st.reset_socket_trimesh 1
  let m2 := translateM m1 socket_pos
  { st with
    socket_trimesh := m2
    socket_pos := socket_pos
    socket_scene := m2
    socket_pcl := sample m2 st.n_points
    plug_pose_no_rot := List.replicate st.num_envs idTf }

/-- The socket contribution to `get_pcl` (line 331): the cached
`socket_pc` vertices transformed by each socket pose. -/
def get_pcl_socket_points (st : ContactState) (socket_poses : List TfQ) :
    List (List Qvec3) :=
  socket_poses.map (fun T => apply_transform T st.socket_pc)

/-- A deterministic stand-in for the random surface draw: every drawn
point reflects the mesh's scale and offset (as any point on the scaled,
shifted surface does). -/
def vertexSampler (m : MeshQ) (n : ℕ) : List Qvec3 :=
  List.replicate n ⟨m.scale + m.offset.x, m.offset.y, m.offset.z⟩

/-- C8 (counterexample): construct with `socket_scale = 2`, then call
`reset_socket_pos`.  The cached point cloud `socket_pc` that `get_pcl`
keeps using is still the construction-time sample of the scale-2 mesh:
it differs from the sample of the rebuilt mesh (which was rescaled by
`1.0`, not `socket_scale`), so stale socket state survives the reset
and leaks into subsequent `get_pcl` queries. -/
theorem reset_socket_pos_stale_pc :
    (reset_socket_pos
        (ExtrinsicContact_init 0 2 ⟨0,0,0⟩ 1 1 vertexSampler)
        ⟨0,0,0⟩ vertexSampler).socket_pc
      = (ExtrinsicContact_init 0 2 ⟨0,0,0⟩ 1 1 vertexSampler).socket_pc ∧
    (reset_socket_pos
        (ExtrinsicContact_init 0 2 ⟨0,0,0⟩ 1 1 vertexSampler)
        ⟨0,0,0⟩ vertexSampler).socket_pc
      ≠ vertexSampler
          (reset_socket_pos
            (ExtrinsicContact_init 0 2 ⟨0,0,0⟩ 1 1 vertexSampler)
            ⟨0,0,0⟩ vertexSampler).socket_trimesh
          1 ∧
    (reset_socket_pos
        (ExtrinsicContact_init 0 2 ⟨0,0,0⟩ 1 1 vertexSampler)
        ⟨0,0,0⟩ vertexSampler).socket_trimesh.scale
      ≠ (ExtrinsicContact_init 0 2 ⟨0,0,0⟩ 1 1 vertexSampler).socket_trimesh.scale ∧
    get_pcl_socket_points
        (reset_socket_pos
          (ExtrinsicContact_init 0 2 ⟨0,0,0⟩ 1 1 vertexSampler)
          ⟨0,0,0⟩ vertexSampler)
        [idTf]
      = [[⟨2,0,0⟩]] := by
  refine ⟨rfl, ?_, ?_, ?_⟩
  · norm_num [reset_socket_pos, ExtrinsicContact_init, vertexSampler,
      apply_scaleM, translateM, smulQ, Qvec3.mk.injEq, List.replicate]
  · norm_num [reset_socket_pos, ExtrinsicContact_init, apply_scaleM,
      translateM, smulQ]
  · norm_num [get_pcl_socket_points, reset_socket_pos, ExtrinsicContact_init,
      vertexSampler, apply_transform, tf_apply, idTf, dotQ, apply_scaleM,
      translateM, smulQ, List.replicate]

/-- C8 (amended): `reset_socket_pos` rebuilds the socket mesh from the
construction-time copy (rescaled by the literal `1.0`, not the
constructor's `socket_scale`), repositions it, rebuilds the raycasting
scene from exactly that mesh, redraws the surface sample from it, and
resets the tracked plug poses — but the cached point cloud `socket_pc`
used by `get_pcl` is left as it was, so that piece of state derived
from the previous mesh persists. -/
theorem reset_socket_pos_rebuild (st : ContactState) (p : Qvec3)
    (sample : MeshQ → ℕ → List Qvec3) :
    (reset_socket_pos st p sample).socket_trimesh
        = translateM (apply_scaleM st.reset_socket_trimesh 1) p ∧
    (reset_socket_pos st p sample).socket_scene
        = (reset_socket_pos st p sample).socket_trimesh ∧
    (reset_socket_pos st p sample).socket_pcl
        = sample (reset_socket_pos st p sample).socket_trimesh st.n_points ∧
    (reset_socket_pos st p sample).socket_pos = p ∧
    (reset_socket_pos st p sample).plug_pose_no_rot
        = List.replicate st.num_envs idTf ∧
    (reset_socket_pos st p sample).socket_pc = st.socket_pc ∧
    (reset_socket_pos st p sample).reset_socket_trimesh
        = st.reset_socket_trimesh :=
  ⟨rfl, rfl, rfl, rfl, rfl, rfl, rfl⟩

/-! ### `merge_goal_pcl` (lines 367-415)

Per instance `i`, the shared object sample is scaled by
`plug_scale[i]`, transformed by the socket pose, concatenated to the
existing cloud along the point axis, and `randperm`-subsampled back to
the cloud's point count.  The `torch.randperm` draw is the `perm`
input. -/

def merge_goal_pcl (pcl : List (List Qvec3)) (socket_poses : List TfQ)
    (plug_scale : List ℚ) (object_pc : List Qvec3) (perm : List ℕ) :
    List (List Qvec3) :=
  let goal := fun i =>
    apply_transform (socket_poses.getD i idTf)
      (object_pc.map (smulQ (plug_scale.getD i 0)))
  let merged := (List.range pcl.length).map (fun i => pcl.getD i [] ++ goal i)
  let chosen := perm.take (pcl.headD []).length
  merged.map (fun row => chosen.map (fun j => row.getD j ⟨0,0,0⟩))

/-- C9 (confirmed): for an `N × P` cloud, `merge_goal_pcl` returns per
instance exactly `P` points; the points are read off the `P + P'`
concatenation of the existing cloud and the scaled, transformed goal
points at the first `P` positions of the `randperm` draw, which are
pairwise distinct (selection without replacement) and in range. -/
theorem merge_goal_pcl_spec (pcl : List (List Qvec3))
    (socket_poses : List TfQ) (plug_scale : List ℚ)
    (object_pc : List Qvec3) (perm : List ℕ) (P : ℕ)
    (hrows : ∀ row ∈ pcl, row.length = P)
    (hperm : perm.Perm (List.range (P + object_pc.length))) :
    (perm.take P).Nodup ∧
    (∀ j ∈ perm.take P, j < P + object_pc.length) ∧
    ∀ n < pcl.length,
      ((merge_goal_pcl pcl socket_poses plug_scale object_pc perm).getD n []).length = P ∧
      (merge_goal_pcl pcl socket_poses plug_scale object_pc perm).getD n []
        = (perm.take P).map
            (fun j => (pcl.getD n [] ++
              apply_transform (socket_poses.getD n idTf)
                (object_pc.map (smulQ (plug_scale.getD n 0)))).getD j ⟨0,0,0⟩) ∧
      ∀ q ∈ (merge_goal_pcl pcl socket_poses plug_scale object_pc perm).getD n [],
        q ∈ pcl.getD n [] ++
          apply_transform (socket_poses.getD n idTf)
            (object_pc.map (smulQ (plug_scale.getD n 0))) := by
  have hpermlen : perm.length = P + object_pc.length := by
    rw [hperm.length_eq, List.length_range]
  have hnodup : (perm.take P).Nodup :=
    ((hperm.nodup_iff).mpr (List.nodup_range _)).sublist (List.take_sublist _ _)
  have hrange : ∀ j ∈ perm.take P, j < P + object_pc.length := by
    intro j hj
    have : j ∈ List.range (P + object_pc.length) :=
      hperm.subset (List.take_subset _ _ hj)
    exact List.mem_range.mp this
  refine ⟨hnodup, hrange, ?_⟩
  intro n hn
  have hne : pcl ≠ [] := by
    intro h; rw [h] at hn; exact Nat.not_lt_zero n hn
  have hheadP : (pcl.headD []).length = P := by
    cases pcl with
    | nil => exact absurd rfl hne
    | cons r rest => exact hrows r (List.mem_cons_self r rest)
  have hchosen : (perm.take (pcl.headD []).length).length = P := by
    rw [List.length_take, hheadP, hpermlen]
    exact min_eq_left (Nat.le_add_right _ _)
  have hrowlen : (pcl.getD n [] ++
      apply_transform (socket_poses.getD n idTf)
        (object_pc.map (smulQ (plug_scale.getD n 0)))).length
      = P + object_pc.length := by
    rw [List.length_append]
    congr 1
    · rw [List.getD_eq_getElem _ _ hn]
      exact hrows _ (List.getElem_mem hn)
    · unfold apply_transform
      rw [List.length_map, List.length_map]
  have hrow : (merge_goal_pcl pcl socket_poses plug_scale object_pc perm).getD n []
      = (perm.take (pcl.headD []).length).map
          (fun j => (pcl.getD n [] ++
            apply_transform (socket_poses.getD n idTf)
              (object_pc.map (smulQ (plug_scale.getD n 0)))).getD j ⟨0,0,0⟩) := by
    unfold merge_goal_pcl
    have hlen1 : n < ((List.range pcl.length).map
        (fun i => pcl.getD i [] ++
          apply_transform (socket_poses.getD i idTf)
            (object_pc.map (smulQ (plug_scale.getD i 0))))).length := by
      rw [List.length_map, List.length_range]; exact hn
    rw [List.getD_eq_getElem _ _ (by simpa using hlen1)]
    rw [List.getElem_map, List.getElem_map, List.getElem_range]
  refine ⟨?_, ?_, ?_⟩
  · rw [hrow, List.length_map, hchosen]
  · rw [hrow, hheadP]
  · intro q hq
    rw [hrow] at hq
    rcases List.mem_map.mp hq with ⟨j, hj, rfl⟩
    rw [hheadP] at hj
    have hjlt : j < (pcl.getD n [] ++
        apply_transform (socket_poses.getD n idTf)
          (object_pc.map (smulQ (plug_scale.getD n 0)))).length := by
      rw [hrowlen]; exact hrange j hj
    rw [List.getD_eq_getElem _ _ hjlt]
    exact List.getElem_mem hjlt

/-- C9 (witness): a one-point cloud merged with a one-point goal
sample under the draw `randperm = [1, 0]` keeps exactly one point,
read off position `1` of the two-point concatenation. -/
theorem merge_goal_pcl_spec_witness :
    ((merge_goal_pcl [[(⟨1,0,0⟩ : Qvec3)]] [idTf] [1] [(⟨2,0,0⟩ : Qvec3)] [1,0]).getD 0 []).length = 1 ∧
    (merge_goal_pcl [[(⟨1,0,0⟩ : Qvec3)]] [idTf] [1] [(⟨2,0,0⟩ : Qvec3)] [1,0]).getD 0 []
      = (([1,0] : List ℕ).take 1).map
          (fun j => (([[(⟨1,0,0⟩ : Qvec3)]] : List (List Qvec3)).getD 0 [] ++
            apply_transform (([idTf] : List TfQ).getD 0 idTf)
              (([(⟨2,0,0⟩ : Qvec3)] : List Qvec3).map
                (smulQ (([1] : List ℚ).getD 0 0)))).getD j (⟨0,0,0⟩ : Qvec3)) := by
  have h := merge_goal_pcl_spec [[(⟨1,0,0⟩ : Qvec3)]] [idTf] [1]
    [(⟨2,0,0⟩ : Qvec3)] [1,0] 1
    (by intro row hrow; simp only [List.mem_singleton] at hrow; subst hrow; rfl)
    (by decide)
  exact ⟨(h.2.2 0 (by norm_num)).1, (h.2.2 0 (by norm_num)).2.1⟩

/-! ### Pose tracking: `estimate_pose` (156-186) / `estimate_pose_batch` (188-252)

The geometry is over `ℝ`.  Floating-point NaN production is modelled
by `Option`: the two operations of the original that produce NaN —
the division of a zero vector by its zero norm, and `np.arccos` of an
argument outside `[-1, 1]` — return `none`; every other operation is
exact.  Matrices are stored by columns (the code reads the local Z
axis as the third column `rot[:, 2]`). -/

@[ext] structure Vec3 where
  x : ℝ
  y : ℝ
  z : ℝ

def vadd (a b : Vec3) : Vec3 := ⟨a.x + b.x, a.y + b.y, a.z + b.z⟩

def vsmul (c : ℝ) (a : Vec3) : Vec3 := ⟨c * a.x, c * a.y, c * a.z⟩

def dot3 (a b : Vec3) : ℝ := a.x * b.x + a.y * b.y + a.z * b.z

def cross3 (a b : Vec3) : Vec3 :=
  ⟨a.y * b.z - a.z * b.y, a.z * b.x - a.x * b.z, a.x * b.y - a.y * b.x⟩

noncomputable def norm3 (a : Vec3) : ℝ := Real.sqrt (dot3 a a)

def vzero : Vec3 := ⟨0, 0, 0⟩

/-- A 3×3 matrix stored by columns. -/
@[ext] structure Mat3 where
  c0 : Vec3
  c1 : Vec3
  c2 : Vec3

def mulVec3 (A : Mat3) (v : Vec3) : Vec3 :=
  vadd (vadd (vsmul v.x A.c0) (vsmul v.y A.c1)) (vsmul v.z A.c2)

def matMul (A B : Mat3) : Mat3 := ⟨mulVec3 A B.c0, mulVec3 A B.c1, mulVec3 A B.c2⟩

def mat1 : Mat3 := ⟨⟨1,0,0⟩, ⟨0,1,0⟩, ⟨0,0,1⟩⟩

def matAdd (A B : Mat3) : Mat3 := ⟨vadd A.c0 B.c0, vadd A.c1 B.c1, vadd A.c2 B.c2⟩

def matSmul (c : ℝ) (A : Mat3) : Mat3 := ⟨vsmul c A.c0, vsmul c A.c1, vsmul c A.c2⟩

/-- The skew-symmetric cross-product matrix of an axis vector. -/
def skew (u : Vec3) : Mat3 :=
  ⟨⟨0, u.z, -u.y⟩, ⟨-u.z, 0, u.x⟩, ⟨u.y, -u.x, 0⟩⟩

/-- Rodrigues' formula: the rotation by angle `θ` about the unit axis
`u`, `I + sin θ · K + (1 - cos θ) · K²`. -/
noncomputable def rodrigues (u : Vec3) (θ : ℝ) : Mat3 :=
  matAdd (matAdd mat1 (matSmul (Real.sin θ) (skew u)))
    (matSmul (1 - Real.cos θ) (matMul (skew u) (skew u)))

/-- `scipy...Rotation.from_rotvec(v).as_matrix()`: rotation by angle
`‖v‖` about `v/‖v‖`, the identity at `v = 0`. -/
noncomputable def fromRotvec (v : Vec3) : Mat3 :=
  if norm3 v = 0 then mat1 else rodrigues (vsmul (norm3 v)⁻¹ v) (norm3 v)

/-- numpy's default `isclose`/`allclose` tolerances: comparison with
`1.0` holds iff `|a - 1| ≤ atol + rtol·|1.0| = 1e-8 + 1e-5`. -/
noncomputable def npAtol : ℝ := 1/100000000

noncomputable def npRtol : ℝ := 1/100000

/-- `np.clip` over `ℝ`. -/
noncomputable def npClipR (x lo hi : ℝ) : ℝ := min (max x lo) hi

@[ext] structure Row4 where
  a : ℝ
  b : ℝ
  c : ℝ
  d : ℝ

/-- A homogeneous 4×4 pose: rotation block, translation column, and
bottom row. -/
@[ext] structure Pose4 where
  rot : Mat3
  pos : Vec3
  bottom : Row4

def eye4 : Pose4 := ⟨mat1, vzero, ⟨0,0,0,1⟩⟩

/-- `estimate_pose` (lines 156-186).  `none` models a NaN-poisoned
result: the code divides the cross-product axis by a zero norm
(`0/0 → NaN`) or calls `np.arccos` outside `[-1, 1]` (→ NaN) and the
NaN then propagates into the returned matrix. -/
noncomputable def estimate_pose (curr_pose prev_pose : Pose4) : Option Pose4 :=
  let curr_pos := curr_pose.pos
  let curr_z0 := curr_pose.rot.c2
  if norm3 curr_z0 = 0 then none
  else
    let curr_z := vsmul (norm3 curr_z0)⁻¹ curr_z0
    let prev_rot := prev_pose.rot
    let prev_z := prev_rot.c2
    let cos_dist := dot3 prev_z curr_z
    if |cos_dist - 1| ≤ npAtol + npRtol then
      some ⟨matMul mat1 prev_rot, curr_pos, ⟨0,0,0,1⟩⟩
    else
      let axis := cross3 prev_z curr_z
      if norm3 axis = 0 then none
      else if cos_dist < -1 ∨ 1 < cos_dist then none
      else
        some ⟨matMul
            (fromRotvec (vsmul (Real.arccos cos_dist)
              (vsmul (norm3 axis)⁻¹ axis))) prev_rot,
          curr_pos, ⟨0,0,0,1⟩⟩

/-- One row of `estimate_pose_batch` (lines 188-252): the batched code
clips the cosine into `[-1, 1]` before `arccos` and replaces a
zero-norm axis by the zero vector (`np.where(norms > 0.0, ...)`), so
no NaN arises there; rows whose current Z column has zero norm would
still be NaN-poisoned by the normalisation (`none`). -/
noncomputable def estimate_pose_batch_row (curr_pose prev_pose : Pose4) : Option Pose4 :=
  let curr_z0 := curr_pose.rot.c2
  if norm3 curr_z0 = 0 then none
  else
    let curr_z := vsmul (norm3 curr_z0)⁻¹ curr_z0
    let prev_z := prev_pose.rot.c2
    let cos_dist := dot3 prev_z curr_z
    let axis0 := cross3 prev_z curr_z
    let axis := if 0 < norm3 axis0 then vsmul (norm3 axis0)⁻¹ axis0 else vzero
    let angle := Real.arccos (npClipR cos_dist (-1) 1)
    let delta := if |cos_dist - 1| ≤ npAtol + npRtol then mat1
                 else fromRotvec (vsmul angle axis)
    some ⟨matMul delta prev_pose.rot, curr_pose.pos, ⟨0,0,0,1⟩⟩

/-- `estimate_pose_batch`: the batched code vectorises the row
computation over the `N` pose pairs. -/
noncomputable def estimate_pose_batch (curr_poses prev_poses : List Pose4) :
    List (Option Pose4) :=
  List.zipWith estimate_pose_batch_row curr_poses prev_poses

theorem dot3_self_nonneg (a : Vec3) : 0 ≤ dot3 a a := by
  unfold dot3
  nlinarith [sq_nonneg a.x, sq_nonneg a.y, sq_nonneg a.z]

theorem norm3_nonneg (a : Vec3) : 0 ≤ norm3 a := Real.sqrt_nonneg _

theorem norm3_vzero : norm3 vzero = 0 := by
  unfold norm3 dot3 vzero
  norm_num

theorem vsmul_vzero (c : ℝ) : vsmul c vzero = vzero := by
  unfold vsmul vzero
  ext <;> norm_num

theorem vsmul_one (v : Vec3) : vsmul 1 v = v := by
  unfold vsmul
  ext <;> norm_num

theorem vsmul_vsmul (a b : ℝ) (v : Vec3) :
    vsmul a (vsmul b v) = vsmul (a * b) v := by
  unfold vsmul
  ext <;> dsimp <;> ring

theorem norm3_vsmul (c : ℝ) (v : Vec3) : norm3 (vsmul c v) = |c| * norm3 v := by
  unfold norm3
  have h : dot3 (vsmul c v) (vsmul c v) = c^2 * dot3 v v := by
    unfold dot3 vsmul; ring
  rw [h, Real.sqrt_mul (sq_nonneg c), Real.sqrt_sq_eq_abs]

theorem matMul_one_left (B : Mat3) : matMul mat1 B = B := by
  unfold matMul mat1 mulVec3 vadd vsmul
  ext <;> dsimp <;> ring

theorem fromRotvec_vzero : fromRotvec vzero = mat1 := by
  unfold fromRotvec
  rw [if_pos norm3_vzero]

/-- `from_rotvec` of `θ·u` for a unit axis `u` and `θ > 0` is the
Rodrigues rotation by `θ` about `u`. -/
theorem fromRotvec_smul_unit (u : Vec3) (θ : ℝ) (hu : norm3 u = 1)
    (hθ : 0 < θ) : fromRotvec (vsmul θ u) = rodrigues u θ := by
  have hn : norm3 (vsmul θ u) = θ := by
    rw [norm3_vsmul, hu, mul_one, abs_of_pos hθ]
  unfold fromRotvec
  rw [if_neg (by rw [hn]; exact ne_of_gt hθ), hn, vsmul_vsmul,
      inv_mul_cancel₀ (ne_of_gt hθ), vsmul_one]

/-- A current pose whose local Z axis points along `-z`: rotation
`diag(1, -1, -1)`, a half-turn about the x axis, position at the
origin. -/
def flipPose : Pose4 := ⟨⟨⟨1,0,0⟩, ⟨0,-1,0⟩, ⟨0,0,-1⟩⟩, vzero, ⟨0,0,0,1⟩⟩

/-- C1 (counterexample): with the previous pose the identity and the
current Z axis anti-parallel to it, the single-pose `estimate_pose`
does NOT fall back to the identity: `np.allclose(cos_dist, 1)` is
false at `cos_dist = -1`, the cross product is the zero vector, and
the axis normalisation divides `0/0` — the call NaN-poisons its
result (modelled `none`) instead of returning a NaN-free pose. -/
theorem estimate_pose_antiparallel_nan :
    estimate_pose flipPose eye4 = none := by
  have hz : norm3 (⟨0,0,-1⟩ : Vec3) = 1 := by
    unfold norm3 dot3
    norm_num [Real.sqrt_one]
  simp only [estimate_pose, flipPose, eye4, mat1]
  norm_num [hz, norm3, dot3, cross3, vsmul, vzero, npAtol, npRtol,
    Real.sqrt_one, Real.sqrt_zero]

/-- One batched row when the cross product of the Z directions is the
zero vector: the `np.where(norms > 0.0, ...)` guard yields a zero
axis, the rotation vector is zero, and the delta rotation is the
identity in both branches. -/
theorem estimate_pose_batch_row_zero_cross (curr prev : Pose4)
    (h0 : norm3 curr.rot.c2 ≠ 0)
    (hx : cross3 prev.rot.c2 (vsmul (norm3 curr.rot.c2)⁻¹ curr.rot.c2) = vzero) :
    estimate_pose_batch_row curr prev = some ⟨prev.rot, curr.pos, ⟨0,0,0,1⟩⟩ := by
  simp only [estimate_pose_batch_row]
  rw [if_neg h0, hx, norm3_vzero, if_neg (lt_irrefl (0:ℝ)), vsmul_vzero,
      fromRotvec_vzero, ite_self, matMul_one_left]

/-- C1 (amended): `estimate_pose_batch` does fall back to an identity
delta rotation and return NaN-free poses on every row whose Z
directions have zero-norm cross product — covering parallel,
anti-parallel, and cosines drifted outside `[-1, 1]`, which the batch
code clips — while the single-pose `estimate_pose` falls back to the
identity delta only when the cosine is within numpy-`allclose`
tolerance of `1` (it NaN-poisons the anti-parallel case instead). -/
theorem pose_degenerate_fallback :
    (∀ currs prevs : List Pose4,
      (∀ pr ∈ currs.zip prevs, norm3 pr.1.rot.c2 ≠ 0 ∧
        cross3 pr.2.rot.c2 (vsmul (norm3 pr.1.rot.c2)⁻¹ pr.1.rot.c2) = vzero) →
      estimate_pose_batch currs prevs
        = (currs.zip prevs).map
            (fun pr => some (⟨pr.2.rot, pr.1.pos, ⟨0,0,0,1⟩⟩ : Pose4))) ∧
    (∀ curr prev : Pose4, norm3 curr.rot.c2 ≠ 0 →
      |dot3 prev.rot.c2 (vsmul (norm3 curr.rot.c2)⁻¹ curr.rot.c2) - 1|
          ≤ npAtol + npRtol →
      estimate_pose curr prev = some ⟨prev.rot, curr.pos, ⟨0,0,0,1⟩⟩) := by
  constructor
  · intro currs
    induction currs with
    | nil => intro prevs h; rfl
    | cons c cs ih =>
      intro prevs h
      cases prevs with
      | nil => rfl
      | cons p ps =>
        have hhead := h (c, p) (by simp [List.zip_cons_cons])
        have htail := ih ps (fun pr hpr => h pr (by simp [List.zip_cons_cons]; right; exact hpr))
        simp only [estimate_pose_batch, List.zipWith_cons_cons,
          List.zip_cons_cons, List.map_cons] at htail ⊢
        rw [estimate_pose_batch_row_zero_cross c p hhead.1 hhead.2]
        rw [htail]
  · intro curr prev h0 hclose
    simp only [estimate_pose]
    rw [if_neg h0, if_pos hclose, matMul_one_left]

/-- C1 (witness): the batch fallback evaluated at the anti-parallel
pair (`flipPose` against the identity), and the single-pose fallback
at an exactly-parallel pair. -/
theorem pose_degenerate_fallback_witness :
    estimate_pose_batch [flipPose] [eye4]
      = [some ⟨eye4.rot, flipPose.pos, ⟨0,0,0,1⟩⟩] ∧
    estimate_pose eye4 eye4 = some ⟨eye4.rot, eye4.pos, ⟨0,0,0,1⟩⟩ := by
  have hz : norm3 (⟨0,0,-1⟩ : Vec3) = 1 := by
    unfold norm3 dot3
    norm_num [Real.sqrt_one]
  have hz1 : norm3 (⟨0,0,1⟩ : Vec3) = 1 := by
    unfold norm3 dot3
    norm_num [Real.sqrt_one]
  constructor
  · exact pose_degenerate_fallback.1 [flipPose] [eye4]
      (by
        intro pr hpr
        simp only [List.zip_cons_cons, List.zip_nil_left, List.mem_singleton] at hpr
        subst hpr
        refine ⟨?_, ?_⟩
        · show norm3 (⟨0,0,-1⟩ : Vec3) ≠ 0
          rw [hz]; norm_num
        · show cross3 (⟨0,0,1⟩ : Vec3)
            (vsmul (norm3 (⟨0,0,-1⟩ : Vec3))⁻¹ ⟨0,0,-1⟩) = vzero
          rw [hz]
          norm_num [cross3, vsmul, vzero])
  · exact pose_degenerate_fallback.2 eye4 eye4
      (by show norm3 (⟨0,0,1⟩ : Vec3) ≠ 0; rw [hz1]; norm_num)
      (by
        show |dot3 (⟨0,0,1⟩ : Vec3) (vsmul (norm3 (⟨0,0,1⟩ : Vec3))⁻¹ ⟨0,0,1⟩) - 1|
            ≤ npAtol + npRtol
        rw [hz1]
        norm_num [dot3, vsmul, npAtol, npRtol])

/-- The delta rotation exactly as the spec words it: axis
`normalize(cross(prev_z, curr_z))`, angle
`arccos(clip(dot(prev_z, curr_z), -1, 1))`, composed by the
minimal-angle axis-angle (Rodrigues) rotation. -/
noncomputable def deltaRotSpec (prev_z curr_z : Vec3) : Mat3 :=
  rodrigues (vsmul (norm3 (cross3 prev_z curr_z))⁻¹ (cross3 prev_z curr_z))
    (Real.arccos (npClipR (dot3 prev_z curr_z) (-1) 1))

theorem norm3_normalize (a : Vec3) (h : norm3 a ≠ 0) :
    norm3 (vsmul (norm3 a)⁻¹ a) = 1 := by
  have hpos : 0 < norm3 a := lt_of_le_of_ne (norm3_nonneg a) (Ne.symm h)
  rw [norm3_vsmul, abs_of_pos (inv_pos.mpr hpos), inv_mul_cancel₀ h]

/-- The rotation the code builds from the normalised cross product and
the arccos of the cosine is the spec's delta rotation. -/
theorem delta_eq_spec (pz z : Vec3)
    (hax : norm3 (cross3 pz z) ≠ 0)
    (hlo : -1 ≤ dot3 pz z) (hhi : dot3 pz z ≤ 1) (hlt : dot3 pz z < 1) :
    fromRotvec (vsmul (Real.arccos (dot3 pz z))
        (vsmul (norm3 (cross3 pz z))⁻¹ (cross3 pz z)))
      = deltaRotSpec pz z := by
  have hang : 0 < Real.arccos (dot3 pz z) := Real.arccos_pos.mpr hlt
  rw [fromRotvec_smul_unit _ _ (norm3_normalize _ hax) hang]
  unfold deltaRotSpec npClipR
  rw [max_eq_left hlo, min_eq_left hhi]

/-- C5 (confirmed): away from the degenerate cases (non-parallel Z
axes, cosine in `[-1,1]`), both `estimate_pose` and the batched
variant return the pose whose rotation block is
`delta_rotation @ prev_rotation` with `delta_rotation` the
minimal-angle axis-angle rotation aligning the previous Z axis to the
(normalised) current Z axis, whose translation is the current
position, and whose bottom row is `[0,0,0,1]`; the raw current
rotation enters only through its normalised third column. -/
theorem estimate_pose_delta_structure (curr prev : Pose4)
    (h0 : norm3 curr.rot.c2 ≠ 0)
    (hnc : ¬ |dot3 prev.rot.c2 (vsmul (norm3 curr.rot.c2)⁻¹ curr.rot.c2) - 1|
        ≤ npAtol + npRtol)
    (hax : norm3 (cross3 prev.rot.c2
        (vsmul (norm3 curr.rot.c2)⁻¹ curr.rot.c2)) ≠ 0)
    (hlo : -1 ≤ dot3 prev.rot.c2 (vsmul (norm3 curr.rot.c2)⁻¹ curr.rot.c2))
    (hhi : dot3 prev.rot.c2 (vsmul (norm3 curr.rot.c2)⁻¹ curr.rot.c2) ≤ 1) :
    estimate_pose curr prev
      = some ⟨matMul (deltaRotSpec prev.rot.c2
            (vsmul (norm3 curr.rot.c2)⁻¹ curr.rot.c2)) prev.rot,
          curr.pos, ⟨0,0,0,1⟩⟩ ∧
    estimate_pose_batch_row curr prev
      = some ⟨matMul (deltaRotSpec prev.rot.c2
            (vsmul (norm3 curr.rot.c2)⁻¹ curr.rot.c2)) prev.rot,
          curr.pos, ⟨0,0,0,1⟩⟩ ∧
    estimate_pose_batch [curr] [prev]
      = [some ⟨matMul (deltaRotSpec prev.rot.c2
            (vsmul (norm3 curr.rot.c2)⁻¹ curr.rot.c2)) prev.rot,
          curr.pos, ⟨0,0,0,1⟩⟩] := by
  have hlt : dot3 prev.rot.c2 (vsmul (norm3 curr.rot.c2)⁻¹ curr.rot.c2) < 1 := by
    by_contra hge
    push_neg at hge
    have heq : dot3 prev.rot.c2 (vsmul (norm3 curr.rot.c2)⁻¹ curr.rot.c2) = 1 :=
      le_antisymm hhi hge
    apply hnc
    rw [heq]
    norm_num [npAtol, npRtol]
  have hclip : npClipR (dot3 prev.rot.c2
      (vsmul (norm3 curr.rot.c2)⁻¹ curr.rot.c2)) (-1) 1
      = dot3 prev.rot.c2 (vsmul (norm3 curr.rot.c2)⁻¹ curr.rot.c2) := by
    unfold npClipR
    rw [max_eq_left hlo, min_eq_left hhi]
  have hor : ¬ (dot3 prev.rot.c2 (vsmul (norm3 curr.rot.c2)⁻¹ curr.rot.c2) < -1 ∨
      1 < dot3 prev.rot.c2 (vsmul (norm3 curr.rot.c2)⁻¹ curr.rot.c2)) := by
    rw [not_or]
    exact ⟨not_lt.mpr hlo, not_lt.mpr hhi⟩
  have hrow : estimate_pose_batch_row curr prev
      = some ⟨matMul (deltaRotSpec prev.rot.c2
            (vsmul (norm3 curr.rot.c2)⁻¹ curr.rot.c2)) prev.rot,
          curr.pos, ⟨0,0,0,1⟩⟩ := by
    have hpos : 0 < norm3 (cross3 prev.rot.c2
        (vsmul (norm3 curr.rot.c2)⁻¹ curr.rot.c2)) :=
      lt_of_le_of_ne (norm3_nonneg _) (Ne.symm hax)
    simp only [estimate_pose_batch_row]
    rw [if_neg h0, if_pos hpos, if_neg hnc, hclip,
        delta_eq_spec _ _ hax hlo hhi hlt]
  refine ⟨?_, hrow, ?_⟩
  · simp only [estimate_pose]
    rw [if_neg h0, if_neg hnc, if_neg hax, if_neg hor,
        delta_eq_spec _ _ hax hlo hhi hlt]
  · show [estimate_pose_batch_row curr prev] = _
    rw [hrow]

/-- A current pose tilted so that its local Z axis lies along `x`. -/
def xTiltPose : Pose4 := ⟨⟨⟨0,1,0⟩, ⟨0,0,1⟩, ⟨1,0,0⟩⟩, vzero, ⟨0,0,0,1⟩⟩

/-- C5 (witness): the delta structure evaluated with a current Z axis
along `x` against the identity previous pose (cosine `0`, rotation by
`π/2` about `y`). -/
theorem estimate_pose_delta_structure_witness :
    estimate_pose xTiltPose eye4
      = some ⟨matMul (deltaRotSpec eye4.rot.c2
            (vsmul (norm3 xTiltPose.rot.c2)⁻¹ xTiltPose.rot.c2)) eye4.rot,
          xTiltPose.pos, ⟨0,0,0,1⟩⟩ ∧
    estimate_pose_batch_row xTiltPose eye4
      = some ⟨matMul (deltaRotSpec eye4.rot.c2
            (vsmul (norm3 xTiltPose.rot.c2)⁻¹ xTiltPose.rot.c2)) eye4.rot,
          xTiltPose.pos, ⟨0,0,0,1⟩⟩ ∧
    estimate_pose_batch [xTiltPose] [eye4]
      = [some ⟨matMul (deltaRotSpec eye4.rot.c2
            (vsmul (norm3 xTiltPose.rot.c2)⁻¹ xTiltPose.rot.c2)) eye4.rot,
          xTiltPose.pos, ⟨0,0,0,1⟩⟩] := by
  have hx1 : norm3 (⟨1,0,0⟩ : Vec3) = 1 := by
    unfold norm3 dot3
    norm_num [Real.sqrt_one]
  have hy1 : norm3 (⟨0,1,0⟩ : Vec3) = 1 := by
    unfold norm3 dot3
    norm_num [Real.sqrt_one]
  have hcr : cross3 (⟨0,0,1⟩ : Vec3) (vsmul (1:ℝ)⁻¹ ⟨1,0,0⟩) = ⟨0,1,0⟩ := by
    norm_num [cross3, vsmul]
  exact estimate_pose_delta_structure xTiltPose eye4
    (by show norm3 (⟨1,0,0⟩ : Vec3) ≠ 0; rw [hx1]; norm_num)
    (by
      show ¬ |dot3 (⟨0,0,1⟩ : Vec3) (vsmul (norm3 (⟨1,0,0⟩ : Vec3))⁻¹ ⟨1,0,0⟩) - 1|
          ≤ npAtol + npRtol
      rw [hx1]
      norm_num [dot3, vsmul, npAtol, npRtol])
    (by
      show norm3 (cross3 (⟨0,0,1⟩ : Vec3)
          (vsmul (norm3 (⟨1,0,0⟩ : Vec3))⁻¹ ⟨1,0,0⟩)) ≠ 0
      rw [hx1, hcr, hy1]
      norm_num)
    (by
      show -1 ≤ dot3 (⟨0,0,1⟩ : Vec3) (vsmul (norm3 (⟨1,0,0⟩ : Vec3))⁻¹ ⟨1,0,0⟩)
      rw [hx1]
      norm_num [dot3, vsmul])
    (by
      show dot3 (⟨0,0,1⟩ : Vec3) (vsmul (norm3 (⟨1,0,0⟩ : Vec3))⁻¹ ⟨1,0,0⟩) ≤ 1
      rw [hx1]
      norm_num [dot3, vsmul])

/-- The rotation matrix of angle `θ` about the Z axis (columns). -/
noncomputable def rotZ (θ : ℝ) : Mat3 :=
  ⟨⟨Real.cos θ, Real.sin θ, 0⟩, ⟨-Real.sin θ, Real.cos θ, 0⟩, ⟨0,0,1⟩⟩

/-- Post-rotation of a pose about its own local Z axis: the
homogeneous right-multiplication by `diag(Rz(θ), 1)`.  For a pose
(bottom row `[0,0,0,1]`) this multiplies the rotation block by
`Rz(θ)` on the right and leaves position and bottom row unchanged. -/
noncomputable def postRotZ (p : Pose4) (θ : ℝ) : Pose4 :=
  ⟨matMul p.rot (rotZ θ), p.pos, p.bottom⟩

/-- Right-multiplying by `Rz(θ)` leaves the third column unchanged:
`Rz(θ)` fixes the `z` basis vector. -/
theorem matMul_rotZ_c2 (A : Mat3) (θ : ℝ) : (matMul A (rotZ θ)).c2 = A.c2 := by
  unfold matMul rotZ mulVec3 vadd vsmul
  ext <;> dsimp <;> ring

/-- C6 (confirmed): `estimate_pose` is invariant to post-rotating the
current pose about its own local Z axis by any angle `θ`: the tracked
pose is identical, because the function reads the current pose only
through its position and its (Z-invariant) third rotation column. -/
theorem estimate_pose_z_rotation_invariant (curr prev : Pose4) (θ : ℝ) :
    estimate_pose (postRotZ curr θ) prev = estimate_pose curr prev := by
  have hc2 : (postRotZ curr θ).rot.c2 = curr.rot.c2 := matMul_rotZ_c2 curr.rot θ
  have hpos : (postRotZ curr θ).pos = curr.pos := rfl
  simp only [estimate_pose, hc2, hpos]

/-- The in-place effect of `estimate_pose`/`estimate_pose_batch` on
the caller's `curr_pose` array: `curr_z_dir = curr_rot[:, 2]` is a
numpy view, and `curr_z_dir /= np.linalg.norm(curr_z_dir)` divides
the third rotation column in place through it. -/
noncomputable def normalizeZcol (p : Pose4) : Pose4 :=
  ⟨⟨p.rot.c0, p.rot.c1, vsmul (norm3 p.rot.c2)⁻¹ p.rot.c2⟩, p.pos, p.bottom⟩

/-- C10 (confirmed): whenever the third rotation column of the
caller's current pose is not already unit-length (and not degenerate
zero), the in-place normalisation changes the caller's array: the
post-call pose differs from the argument, its Z column now having
norm 1. -/
theorem estimate_pose_mutates_curr (p : Pose4)
    (h0 : norm3 p.rot.c2 ≠ 0) (h1 : norm3 p.rot.c2 ≠ 1) :
    normalizeZcol p ≠ p ∧ norm3 (normalizeZcol p).rot.c2 = 1 := by
  have hunit : norm3 (normalizeZcol p).rot.c2 = 1 := norm3_normalize _ h0
  refine ⟨?_, hunit⟩
  intro heq
  apply h1
  have hc2 : (normalizeZcol p).rot.c2 = p.rot.c2 := by rw [heq]
  rw [← hc2, hunit]

/-- C10 (witness): a pose whose Z column is `(0,0,2)` (norm `2`) is
mutated by the call. -/
theorem estimate_pose_mutates_curr_witness :
    normalizeZcol ⟨⟨⟨1,0,0⟩, ⟨0,1,0⟩, ⟨0,0,2⟩⟩, vzero, ⟨0,0,0,1⟩⟩
      ≠ ⟨⟨⟨1,0,0⟩, ⟨0,1,0⟩, ⟨0,0,2⟩⟩, vzero, ⟨0,0,0,1⟩⟩ ∧
    norm3 (normalizeZcol
        ⟨⟨⟨1,0,0⟩, ⟨0,1,0⟩, ⟨0,0,2⟩⟩, vzero, ⟨0,0,0,1⟩⟩).rot.c2 = 1 := by
  have h2 : norm3 (⟨0,0,2⟩ : Vec3) = 2 := by
    unfold norm3 dot3
    rw [show ((0:ℝ) * 0 + 0 * 0 + 2 * 2) = 2^2 by norm_num,
        Real.sqrt_sq (by norm_num : (0:ℝ) ≤ 2)]
  exact estimate_pose_mutates_curr ⟨⟨⟨1,0,0⟩, ⟨0,1,0⟩, ⟨0,0,2⟩⟩, vzero, ⟨0,0,0,1⟩⟩
    (by show norm3 (⟨0,0,2⟩ : Vec3) ≠ 0; rw [h2]; norm_num)
    (by show norm3 (⟨0,0,2⟩ : Vec3) ≠ 1; rw [h2]; norm_num)
